import Mathlib

/-!
Shallow embedding of the `data-view` Rust crate (src/dataview.rs, src/view.rs,
src/endian.rs) and proofs about its specification.

Modelling conventions:
* A byte buffer `&[u8]` is a `List Nat` whose elements are intended to be `< 256`.
* A numeric value of a fixed-width primitive (`u8 .. u128`, `i8 .. i128`,
  `f32`, `f64`, `usize`, `isize`) is represented by its raw bit pattern as a
  `Nat` (Rust's `f32::to_le_bytes` is `to_bits().to_le_bytes()`, so the bit
  pattern determines the byte representation for every supported type), with
  the byte width `w` of the type carried as an explicit parameter
  (`Endian::SIZE` in the source).
* The byte-order mode chosen at build time by the `BE` / `NE` cargo features
  (little-endian being the default) is the `ByteMode` parameter; what "native"
  means for the build target is the `targetLe : Bool` parameter.
* Rust `usize` arithmetic on offsets is modelled by `Nat`.
* A Rust `assert!` failure (the documented out-of-bounds behaviour of
  `DataView::write` and `DataView::write_slice`) is the `WriteResult.panic`
  constructor, carrying the cursor state at the moment of the abort; it is a
  process abort in the source, not a value returned to the caller.  The
  fallible reads return `Option`, exactly as in the source.
-/

namespace DataViewRs

/-- Byte-order mode fixed at build time by cargo features: the default is
little-endian, the `BE` feature selects big-endian, the `NE` feature selects
the target's native order (src/lib.rs, src/endian.rs). -/
inductive ByteMode
  | le
  | be
  | ne
deriving DecidableEq, Repr

/-- Rust `to_le_bytes` on the bit pattern `v` of a `w`-byte primitive:
least-significant byte first (src/endian.rs, `impl_endian_for`). -/
def toBytesLe : Nat → Nat → List Nat
  | 0, _ => []
  | w + 1, v => v % 256 :: toBytesLe w (v / 256)

/-- Rust `to_be_bytes`: most-significant byte first, i.e. the reverse of the
little-endian representation (src/endian.rs). -/
def toBytesBe (w v : Nat) : List Nat :=
  (toBytesLe w v).reverse

/-- Rust `to_ne_bytes`: the build target's native order, little or big
according to `targetLe` (src/endian.rs). -/
def toBytesNe (targetLe : Bool) (w v : Nat) : List Nat :=
  if targetLe then toBytesLe w v else toBytesBe w v

/-- Rust `from_le_bytes` on a byte slice: byte `i` contributes with weight
`256 ^ i` (src/endian.rs, `impl_endian_for`). -/
def fromBytesLe : List Nat → Nat
  | [] => 0
  | b :: rest => b + 256 * fromBytesLe rest

/-- Rust `from_be_bytes` (src/endian.rs). -/
def fromBytesBe (bytes : List Nat) : Nat :=
  fromBytesLe bytes.reverse

/-- Rust `from_ne_bytes` (src/endian.rs). -/
def fromBytesNe (targetLe : Bool) (bytes : List Nat) : Nat :=
  if targetLe then fromBytesLe bytes else fromBytesBe bytes

/-- `num_write_at` / `write_at_*` feature dispatch: encode a value in the
build-time byte-order mode (src/endian.rs lines 55-73 and 26-31). -/
def numToBytes (targetLe : Bool) : ByteMode → Nat → Nat → List Nat
  | .le => toBytesLe
  | .be => toBytesBe
  | .ne => toBytesNe targetLe

/-- `num_from` / `from_bytes_*` feature dispatch: decode bytes in the
build-time byte-order mode (src/endian.rs lines 55-63 and 33-37). -/
def numFrom (targetLe : Bool) : ByteMode → List Nat → Nat
  | .le => fromBytesLe
  | .be => fromBytesBe
  | .ne => fromBytesNe targetLe

/-- Rust `slice.get(a..b)`: `some` of the subslice when `a ≤ b ∧ b ≤ len`,
otherwise `none`. -/
def sliceGet (l : List Nat) (a b : Nat) : Option (List Nat) :=
  if a ≤ b ∧ b ≤ l.length then some ((l.take b).drop a) else none

/-- The cursor `DataView { data, offset }` of src/dataview.rs; both fields are
`pub`, so `offset` can be set by the caller to any value. -/
structure DataView where
  data : List Nat
  offset : Nat
deriving DecidableEq, Repr

/-- `DataView::new(data)`: offset starts at 0 (src/dataview.rs line 21). -/
def DataView.new (data : List Nat) : DataView :=
  ⟨data, 0⟩

/-- `DataView::remaining_slice`: the slice from `offset.min(len)` to the end of
the buffer; the offset is not changed (src/dataview.rs lines 41-45). -/
def DataView.remaining_slice (dv : DataView) : List Nat :=
  dv.data.drop (dv.offset.min dv.data.length)

/-- `DataView::read_slice(len)` (src/dataview.rs lines 90-96): take the
subslice `data[offset..offset+len]` via `slice::get`; on `Some` advance the
offset to `offset + len`, on `None` return early leaving the state untouched.
The result pairs the returned `Option` with the cursor state after the call. -/
def DataView.read_slice (dv : DataView) (len : Nat) : Option (List Nat) × DataView :=
  match sliceGet dv.data dv.offset (dv.offset + len) with
  | none => (none, dv)
  | some s => (some s, ⟨dv.data, dv.offset + len⟩)

/-- `DataView::read::<E>()` (src/dataview.rs lines 60-64): `read_slice(E::SIZE)`
mapped through `num_from`. -/
def DataView.read (targetLe : Bool) (m : ByteMode) (w : Nat) (dv : DataView) :
    Option Nat × DataView :=
  match dv.read_slice w with
  | (none, dv2) => (none, dv2)
  | (some bytes, dv2) => (some (numFrom targetLe m bytes), dv2)

/-- `DataView::read_buf::<N>()` (src/dataview.rs lines 139-143):
`read_slice(N)` converted into an owned `[u8; N]`; as lists the conversion is
the identity. -/
def DataView.read_buf (dv : DataView) (n : Nat) : Option (List Nat) × DataView :=
  dv.read_slice n

/-- Result of the write operations of src/dataview.rs.  Their Rust return type
is `()`; `panic` models the `assert!(total_len <= dst.len())` failure — a
process abort, not a value handed to the caller — and records the cursor state
at the abort point (the assert runs before any byte is copied). -/
inductive WriteResult
  | ok (next : DataView)
  | panic (state : DataView)
deriving DecidableEq, Repr

/-- `copy_nonoverlapping(src, dst + offset, src.len())`: overwrite
`src.length` bytes of `data` starting at `offset` (callers establish
`offset + src.length ≤ data.length` first). -/
def writeBytesAt (data : List Nat) (offset : Nat) (src : List Nat) : List Nat :=
  data.take offset ++ src ++ data.drop (offset + src.length)

/-- `DataView::write::<E>(num)` (src/dataview.rs lines 176-182): assert
`offset + E::SIZE ≤ len`, copy the encoded bytes at `offset`, set the offset to
`offset + E::SIZE`.  A failed assert aborts before any mutation. -/
def DataView.write (targetLe : Bool) (m : ByteMode) (w : Nat) (dv : DataView)
    (num : Nat) : WriteResult :=
  if dv.offset + w ≤ dv.data.length then
    .ok ⟨writeBytesAt dv.data dv.offset (numToBytes targetLe m w num), dv.offset + w⟩
  else
    .panic dv

/-- `DataView::write_slice(slice)` (src/dataview.rs lines 199-209): assert
`offset + slice.len() ≤ len`, copy the bytes, advance the offset.  A failed
assert aborts before any mutation. -/
def DataView.write_slice (dv : DataView) (src : List Nat) : WriteResult :=
  if dv.offset + src.length ≤ dv.data.length then
    .ok ⟨writeBytesAt dv.data dv.offset src, dv.offset + src.length⟩
  else
    .panic dv

/-- `<[u8] as View>::read_at::<E>(offset)` (src/view.rs lines 72-90):
`self.get(offset..offset + E::SIZE)?` decoded by the feature-selected
`from_bytes_*`; the buffer itself is only read. -/
def read_at (targetLe : Bool) (m : ByteMode) (w : Nat) (buf : List Nat)
    (offset : Nat) : Option Nat :=
  (sliceGet buf offset (offset + w)).map (numFrom targetLe m)

/-- One checked cursor operation, for reasoning about sequences of calls. -/
inductive Op
  | rd (w : Nat)
  | rdSlice (len : Nat)
  | rdBuf (n : Nat)
  | wr (w : Nat) (v : Nat)
  | wrSlice (s : List Nat)
deriving DecidableEq, Repr

/-- The number of bytes an operation consumes or produces when it succeeds. -/
def Op.width : Op → Nat
  | .rd w => w
  | .rdSlice len => len
  | .rdBuf n => n
  | .wr w _ => w
  | .wrSlice s => s.length

/-- Run one checked operation: `some` of the next cursor state on success,
`none` when the operation fails (`None` from a read, `assert!` abort from a
write). -/
def runOp (targetLe : Bool) (m : ByteMode) (dv : DataView) : Op → Option DataView
  | .rd w =>
    match dv.read targetLe m w with
    | (some _, dv2) => some dv2
    | (none, _) => none
  | .rdSlice len =>
    match dv.read_slice len with
    | (some _, dv2) => some dv2
    | (none, _) => none
  | .rdBuf n =>
    match dv.read_buf n with
    | (some _, dv2) => some dv2
    | (none, _) => none
  | .wr w v =>
    match dv.write targetLe m w v with
    | .ok dv2 => some dv2
    | .panic _ => none
  | .wrSlice s =>
    match dv.write_slice s with
    | .ok dv2 => some dv2
    | .panic _ => none

/-- Run a sequence of checked operations, stopping at the first failure. -/
def runOps (targetLe : Bool) (m : ByteMode) : List Op → DataView → Option DataView
  | [], dv => some dv
  | op :: ops, dv => (runOp targetLe m dv op).bind (runOps targetLe m ops)

/-! ### Codec lemmas -/

theorem toBytesLe_length (w v : Nat) : (toBytesLe w v).length = w := by
  induction w generalizing v with
  | zero => rfl
  | succ w ih => simp [toBytesLe, ih]

theorem toBytesLe_mem_lt (w v : Nat) : ∀ x ∈ toBytesLe w v, x < 256 := by
  induction w generalizing v with
  | zero => simp [toBytesLe]
  | succ w ih =>
    intro x hx
    simp only [toBytesLe, List.mem_cons] at hx
    rcases hx with h | h
    · exact h ▸ Nat.mod_lt _ (by norm_num)
    · exact ih _ x h

theorem fromBytesLe_toBytesLe (w v : Nat) :
    fromBytesLe (toBytesLe w v) = v % 256 ^ w := by
  induction w generalizing v with
  | zero => simp [toBytesLe, fromBytesLe, Nat.mod_one]
  | succ w ih =>
    rw [toBytesLe, fromBytesLe, ih, pow_succ']
    exact Nat.mod_mul.symm

theorem toBytesLe_fromBytesLe (b : List Nat) (hb : ∀ x ∈ b, x < 256) :
    toBytesLe b.length (fromBytesLe b) = b := by
  induction b with
  | nil => rfl
  | cons x xs ih =>
    have hx : x < 256 := hb x (List.mem_cons_self x xs)
    have h1 : (x + 256 * fromBytesLe xs) % 256 = x := by
      rw [Nat.add_mul_mod_self_left, Nat.mod_eq_of_lt hx]
    have h2 : (x + 256 * fromBytesLe xs) / 256 = fromBytesLe xs := by
      rw [Nat.add_mul_div_left _ _ (by norm_num : 0 < 256),
        Nat.div_eq_of_lt hx, Nat.zero_add]
    simp only [List.length_cons, toBytesLe, fromBytesLe, h1, h2]
    rw [ih (fun y hy => hb y (List.mem_cons_of_mem _ hy))]

theorem fromBytesBe_toBytesBe (w v : Nat) :
    fromBytesBe (toBytesBe w v) = v % 256 ^ w := by
  rw [fromBytesBe, toBytesBe, List.reverse_reverse, fromBytesLe_toBytesLe]

theorem toBytesBe_fromBytesBe (b : List Nat) (hb : ∀ x ∈ b, x < 256) :
    toBytesBe b.length (fromBytesBe b) = b := by
  have h := toBytesLe_fromBytesLe b.reverse (fun x hx => hb x (List.mem_reverse.mp hx))
  rw [List.length_reverse] at h
  rw [toBytesBe, fromBytesBe, h, List.reverse_reverse]

theorem numFrom_numToBytes (t : Bool) (m : ByteMode) (w v : Nat) :
    numFrom t m (numToBytes t m w v) = v % 256 ^ w := by
  cases m with
  | le => exact fromBytesLe_toBytesLe w v
  | be => exact fromBytesBe_toBytesBe w v
  | ne =>
    cases t with
    | false => simp [numFrom, numToBytes, toBytesNe, fromBytesNe, fromBytesBe_toBytesBe]
    | true => simp [numFrom, numToBytes, toBytesNe, fromBytesNe, fromBytesLe_toBytesLe]

theorem numToBytes_numFrom (t : Bool) (m : ByteMode) (b : List Nat)
    (hb : ∀ x ∈ b, x < 256) :
    numToBytes t m b.length (numFrom t m b) = b := by
  cases m with
  | le => exact toBytesLe_fromBytesLe b hb
  | be => exact toBytesBe_fromBytesBe b hb
  | ne =>
    cases t with
    | false =>
      simp only [numFrom, numToBytes, toBytesNe, fromBytesNe, if_neg Bool.false_ne_true]
      exact toBytesBe_fromBytesBe b hb
    | true =>
      simp only [numFrom, numToBytes, toBytesNe, fromBytesNe, if_pos rfl]
      exact toBytesLe_fromBytesLe b hb

/-! ### Cursor lemmas -/

theorem read_slice_eq (dv : DataView) (len : Nat) :
    dv.read_slice len =
      if dv.offset + len ≤ dv.data.length then
        (some ((dv.data.take (dv.offset + len)).drop dv.offset),
          ⟨dv.data, dv.offset + len⟩)
      else (none, dv) := by
  unfold DataView.read_slice sliceGet
  by_cases h : dv.offset + len ≤ dv.data.length
  · rw [if_pos ⟨Nat.le_add_right _ _, h⟩, if_pos h]
  · rw [if_neg (fun hc => h hc.2), if_neg h]

theorem read_eq (t : Bool) (m : ByteMode) (w : Nat) (dv : DataView) :
    dv.read t m w =
      if dv.offset + w ≤ dv.data.length then
        (some (numFrom t m ((dv.data.take (dv.offset + w)).drop dv.offset)),
          ⟨dv.data, dv.offset + w⟩)
      else (none, dv) := by
  unfold DataView.read
  rw [read_slice_eq]
  split_ifs with h <;> rfl

theorem numToBytes_length (t : Bool) (m : ByteMode) (w v : Nat) :
    (numToBytes t m w v).length = w := by
  cases m with
  | le => exact toBytesLe_length w v
  | be => rw [numToBytes, toBytesBe, List.length_reverse, toBytesLe_length]
  | ne =>
    cases t with
    | false =>
      simp [numToBytes, toBytesNe, toBytesBe, toBytesLe_length]
    | true =>
      simp [numToBytes, toBytesNe, toBytesLe_length]

theorem writeBytesAt_length (data src : List Nat) (offset : Nat)
    (h : offset + src.length ≤ data.length) :
    (writeBytesAt data offset src).length = data.length := by
  simp only [writeBytesAt, List.length_append, List.length_take, List.length_drop]
  omega

theorem runOp_some_offset (t : Bool) (m : ByteMode) (dv dv2 : DataView) (op : Op)
    (h : runOp t m dv op = some dv2) : dv2.offset = dv.offset + op.width := by
  cases op with
  | rd w =>
    simp only [runOp] at h
    rw [read_eq] at h
    split_ifs at h with hc
    · injection h with h2
      rw [← h2]
      rfl
  | rdSlice len =>
    simp only [runOp] at h
    rw [read_slice_eq] at h
    split_ifs at h with hc
    · injection h with h2
      rw [← h2]
      rfl
  | rdBuf n =>
    simp only [runOp, DataView.read_buf] at h
    rw [read_slice_eq] at h
    split_ifs at h with hc
    · injection h with h2
      rw [← h2]
      rfl
  | wr w v =>
    simp only [runOp, DataView.write] at h
    split_ifs at h with hc
    · injection h with h2
      rw [← h2]
      rfl
  | wrSlice s =>
    simp only [runOp, DataView.write_slice] at h
    split_ifs at h with hc
    · injection h with h2
      rw [← h2]
      rfl

/-! ### Claims -/

/-- C1, counterexample: at the concrete cursor `{ data := [0,0,0,0], offset := 4 }`
with zero bytes of remaining capacity, `DataView::write::<u8>` and
`DataView::write_slice` do not return a typed failure value: they hit the
`assert!` and abort (`WriteResult.panic`), contradicting the claim that a
write with insufficient capacity returns a typed failure and does not abort. -/
theorem write_no_typed_failure_cex :
    DataView.write true .le 1 ⟨[0, 0, 0, 0], 4⟩ 1 = .panic ⟨[0, 0, 0, 0], 4⟩ ∧
    DataView.write_slice ⟨[0, 0, 0, 0], 4⟩ [7] = .panic ⟨[0, 0, 0, 0], 4⟩ := by
  decide

/-- C1, amended: with insufficient remaining capacity
(`offset + width > buffer.length`), `write::<T>` and `write_slice` panic via
`assert!` — a process abort, not a typed failure returned to the caller — and
the abort happens before any mutation; the buffer never grows: every
successful write leaves the buffer length unchanged. -/
theorem write_panics_on_insufficient_capacity (t : Bool) (m : ByteMode)
    (w num : Nat) (src : List Nat) (dv : DataView)
    (hw : dv.data.length < dv.offset + w)
    (hs : dv.data.length < dv.offset + src.length) :
    dv.write t m w num = .panic dv ∧ dv.write_slice src = .panic dv ∧
    (∀ (t2 : Bool) (m2 : ByteMode) (w2 n2 : Nat) (dv0 dv2 : DataView),
      dv0.write t2 m2 w2 n2 = .ok dv2 → dv2.data.length = dv0.data.length) ∧
    (∀ (s2 : List Nat) (dv0 dv2 : DataView),
      dv0.write_slice s2 = .ok dv2 → dv2.data.length = dv0.data.length) := by
  refine ⟨?_, ?_, ?_, ?_⟩
  · rw [DataView.write, if_neg (by omega)]
  · rw [DataView.write_slice, if_neg (by omega)]
  · intro t2 m2 w2 n2 dv0 dv2 h
    rw [DataView.write] at h
    split_ifs at h with hc
    · injection h with h2
      rw [← h2]
      exact writeBytesAt_length _ _ _ (by rw [numToBytes_length]; exact hc)
  · intro s2 dv0 dv2 h
    rw [DataView.write_slice] at h
    split_ifs at h with hc
    · injection h with h2
      rw [← h2]
      exact writeBytesAt_length _ _ _ hc

/-- Witness for C1's amended theorem at the concrete cursor
`{ data := [0,0,0,0], offset := 4 }`. -/
theorem write_panics_on_insufficient_capacity_witness :
    DataView.write true .le 1 ⟨[0, 0, 0, 0], 4⟩ 9 = .panic ⟨[0, 0, 0, 0], 4⟩ :=
  (write_panics_on_insufficient_capacity true .le 1 9 [7] ⟨[0, 0, 0, 0], 4⟩
    (by norm_num) (by norm_num)).1

/-- C2: `<[u8] as View>::read_at::<T>(offset)` fails (returns `none`) iff
`offset + width(T) > buffer.length`; otherwise it returns the decoded value of
the `width(T)` bytes at `offset` (the buffer, taken by `&self`, is pure input
here and is not modified); in particular an offset equal to the buffer length
with any positive width always fails. -/
theorem read_at_bounds_exact (t : Bool) (m : ByteMode) (w : Nat)
    (buf : List Nat) (off : Nat) :
    (read_at t m w buf off = none ↔ buf.length < off + w) ∧
    (off + w ≤ buf.length →
      read_at t m w buf off = some (numFrom t m ((buf.take (off + w)).drop off))) ∧
    (off = buf.length → 0 < w → read_at t m w buf off = none) := by
  unfold read_at sliceGet
  by_cases h : off + w ≤ buf.length
  · rw [if_pos ⟨Nat.le_add_right _ _, h⟩]
    exact ⟨by simp; omega, fun _ => rfl, fun he hw => absurd h (by omega)⟩
  · rw [if_neg (fun hc => h hc.2)]
    exact ⟨by simp; omega, fun hc => absurd hc h, fun _ _ => rfl⟩

/-- Witness for C2 at buffer `[1,2,3]`, offset 3 (equal to the length),
width 2: the read fails. -/
theorem read_at_bounds_exact_witness :
    read_at true .le 2 [1, 2, 3] 3 = none :=
  (read_at_bounds_exact true .le 2 [1, 2, 3] 3).2.2 rfl (by norm_num)

/-- C3: for every cursor state, each failing checked operation — `read::<T>`,
`read_slice`, `read_buf::<N>` returning `none`, or `write::<T>`, `write_slice`
hitting the assert — leaves the cursor's offset and the buffer's contents
byte-for-byte unchanged: the state paired with a `none` read result is the
input state, and the state at a write panic is the input state. -/
theorem failing_ops_leave_state_unchanged (t : Bool) (m : ByteMode)
    (dv : DataView) (w len n num : Nat) (src : List Nat) :
    ((dv.read t m w).1 = none → (dv.read t m w).2 = dv) ∧
    ((dv.read_slice len).1 = none → (dv.read_slice len).2 = dv) ∧
    ((dv.read_buf n).1 = none → (dv.read_buf n).2 = dv) ∧
    (∀ dv2, dv.write t m w num = .panic dv2 → dv2 = dv) ∧
    (∀ dv2, dv.write_slice src = .panic dv2 → dv2 = dv) := by
  refine ⟨?_, ?_, ?_, ?_, ?_⟩
  · rw [read_eq]
    split_ifs with h
    · intro hc
      exact hc.elim
    · intro _
      rfl
  · rw [read_slice_eq]
    split_ifs with h
    · intro hc
      exact hc.elim
    · intro _
      rfl
  · rw [DataView.read_buf, read_slice_eq]
    split_ifs with h
    · intro hc
      exact hc.elim
    · intro _
      rfl
  · intro dv2 h
    rw [DataView.write] at h
    split_ifs at h with hc
    injection h with h2
    exact h2.symm
  · intro dv2 h
    rw [DataView.write_slice] at h
    split_ifs at h with hc
    injection h with h2
    exact h2.symm

/-- Witness for C3 at the concrete cursor `{ data := [1], offset := 5 }`: the
failing `read_slice(2)` leaves the state unchanged. -/
theorem failing_ops_leave_state_unchanged_witness :
    ((⟨[1], 5⟩ : DataView).read_slice 2).2 = ⟨[1], 5⟩ :=
  (failing_ops_leave_state_unchanged true .le ⟨[1], 5⟩ 2 2 2 9 [1, 2]).2.1 (by decide)

/-- C4: running any finite sequence of checked cursor operations in which every
operation succeeds ends with the offset equal to the initial offset plus the
sum of the widths consumed or produced by the operations. -/
theorem offset_accumulates_widths (t : Bool) (m : ByteMode) (ops : List Op)
    (dv dv2 : DataView) (h : runOps t m ops dv = some dv2) :
    dv2.offset = dv.offset + (ops.map Op.width).sum := by
  induction ops generalizing dv with
  | nil =>
    simp only [runOps, Option.some.injEq] at h
    simp [← h]
  | cons op ops ih =>
    simp only [runOps, Option.bind_eq_some] at h
    obtain ⟨dv1, h1, h2⟩ := h
    have ha := runOp_some_offset t m dv dv1 op h1
    have hb := ih dv1 h2
    simp only [List.map_cons, List.sum_cons]
    omega

/-- Witness for C4: a write of 2 bytes followed by a read of 2 bytes on a
4-byte buffer ends at offset 0 + (2 + 2). -/
theorem offset_accumulates_widths_witness :
    (⟨[42, 0, 0, 0], 4⟩ : DataView).offset =
      (⟨[0, 0, 0, 0], 0⟩ : DataView).offset +
        (([Op.wr 2 42, Op.rd 2]).map Op.width).sum :=
  offset_accumulates_widths true .le [Op.wr 2 42, Op.rd 2]
    ⟨[0, 0, 0, 0], 0⟩ ⟨[42, 0, 0, 0], 4⟩ (by decide)

/-- C5: under any fixed byte-order mode and for any width, decoding the
encoding of a bit pattern `v < 256 ^ w` gives back `v` (bit patterns cover NaN
payloads, since Rust's float byte conversions go through `to_bits`), and
encoding the decoding of any `w`-byte sequence gives back the same bytes. -/
theorem codec_round_trip (t : Bool) (m : ByteMode) (w v : Nat) (b : List Nat)
    (hv : v < 256 ^ w) (hb : b.length = w) (hbb : ∀ x ∈ b, x < 256) :
    numFrom t m (numToBytes t m w v) = v ∧
    numToBytes t m w (numFrom t m b) = b := by
  constructor
  · rw [numFrom_numToBytes, Nat.mod_eq_of_lt hv]
  · rw [← hb]
    exact numToBytes_numFrom t m b hbb

/-- Witness for C5 in big-endian mode at width 2, value 0x1234,
bytes [0x34, 0x12]. -/
theorem codec_round_trip_witness :
    numFrom true .be (numToBytes true .be 2 4660) = 4660 ∧
    numToBytes true .be 2 (numFrom true .be [52, 18]) = [52, 18] :=
  codec_round_trip true .be 2 4660 [52, 18] (by norm_num) (by decide) (by decide)

/-- C6: on the 4-byte buffer `[0,0,0,0]` with a fresh cursor in little-endian
mode, `write::<u16>(42)` yields buffer `[42,0,0,0]` and offset 2; then
`write::<u16>(300)` yields buffer `[42,0,44,1]` and offset 4; then
`write::<u8>(1)` fails (the assert aborts with zero bytes remaining) leaving
buffer and offset unchanged from the previous step. -/
theorem end_to_end_scenario :
    DataView.write true .le 2 (DataView.new [0, 0, 0, 0]) 42 =
      .ok ⟨[42, 0, 0, 0], 2⟩ ∧
    DataView.write true .le 2 ⟨[42, 0, 0, 0], 2⟩ 300 = .ok ⟨[42, 0, 44, 1], 4⟩ ∧
    DataView.write true .le 1 ⟨[42, 0, 44, 1], 4⟩ 1 = .panic ⟨[42, 0, 44, 1], 4⟩ := by
  decide

/-- C7: `remaining_slice()` is a total function of the cursor state (it cannot
fail and does not touch the offset): it returns the buffer contents from
`min(offset, length)` to the end, and the empty slice whenever
`offset ≥ length` — including offsets strictly greater than the length. -/
theorem remaining_slice_spec (dv : DataView) :
    dv.remaining_slice = dv.data.drop (min dv.offset dv.data.length) ∧
    (dv.data.length ≤ dv.offset → dv.remaining_slice = []) := by
  refine ⟨rfl, fun h => ?_⟩
  show dv.data.drop (min dv.offset dv.data.length) = []
  rw [Nat.min_eq_right h, List.drop_length]

/-- Witness for C7 at the cursor `{ data := [1,2], offset := 5 }`, whose offset
exceeds the buffer length: the remaining slice is empty. -/
theorem remaining_slice_spec_witness :
    (⟨[1, 2], 5⟩ : DataView).remaining_slice = [] :=
  (remaining_slice_spec ⟨[1, 2], 5⟩).2 (by norm_num)

/-- C8: encoding the 16-bit value 0x1234 gives bytes `[0x34, 0x12]` in
little-endian mode and `[0x12, 0x34]` in big-endian mode, for either build
target. -/
theorem byte_order_of_0x1234 (t : Bool) :
    numToBytes t .le 2 4660 = [52, 18] ∧ numToBytes t .be 2 4660 = [18, 52] := by
  cases t <;> exact ⟨by decide, by decide⟩

/-- C9: for the single-byte types (width 1), the little-endian, big-endian and
native encode functions agree on every value, and the three decode functions
agree on every 1-byte sequence, for either build target: byte-order selection
is unobservable at width 1. -/
theorem single_byte_mode_agreement (t : Bool) (v b : Nat) :
    toBytesLe 1 v = toBytesBe 1 v ∧ toBytesLe 1 v = toBytesNe t 1 v ∧
    fromBytesLe [b] = fromBytesBe [b] ∧ fromBytesLe [b] = fromBytesNe t [b] := by
  cases t <;>
    simp [toBytesLe, toBytesBe, toBytesNe, fromBytesLe, fromBytesBe, fromBytesNe]

/-- C10: the `offset` field is a public field assignable to any value, and for
every cursor state whose offset plus the requested width exceeds the buffer
length — in particular any offset beyond the buffer length — the checked reads
`read::<T>`, `read_slice(len)` and `read_buf::<N>` return `none` and leave the
state (offset and buffer) unchanged; in the embedding they are total
functions, so no out-of-bounds access is performed. -/
theorem checked_reads_safe_any_offset (t : Bool) (m : ByteMode)
    (dv : DataView) (w len n : Nat)
    (hw : dv.data.length < dv.offset + w)
    (hl : dv.data.length < dv.offset + len)
    (hn : dv.data.length < dv.offset + n) :
    dv.read t m w = (none, dv) ∧ dv.read_slice len = (none, dv) ∧
    dv.read_buf n = (none, dv) := by
  refine ⟨?_, ?_, ?_⟩
  · rw [read_eq, if_neg (by omega)]
  · rw [read_slice_eq, if_neg (by omega)]
  · rw [DataView.read_buf, read_slice_eq, if_neg (by omega)]

/-- Witness for C10 at the cursor `{ data := [1,2], offset := 100 }`, whose
offset was set far beyond the 2-byte buffer. -/
theorem checked_reads_safe_any_offset_witness :
    DataView.read true .le 2 ⟨[1, 2], 100⟩ = (none, ⟨[1, 2], 100⟩) :=
  (checked_reads_safe_any_offset true .le ⟨[1, 2], 100⟩ 2 1 4
    (by norm_num) (by norm_num) (by norm_num)).1

end DataViewRs
